import Mathlib

/-!
Verification development for the log-splitting engine of `logboop-rs`
(`src/process.rs`).

The Rust code is shallowly embedded:

* lines are `List Char`; the regexes of the `REGEXES` table are embedded as
  concrete leftmost-first matchers (the `regex` crate uses leftmost-first
  alternation semantics); `\d` is modelled as an ASCII digit (the claims only
  involve ASCII lines);
* `chrono::NaiveDate::parse_from_str` is embedded per format string: numeric
  items skip leading whitespace and consume greedily up to the field width,
  `%b`/`%a` match the English three-letter abbreviations, parsing must consume
  the whole input, and the resolved date is validated (`from_ymd` semantics,
  proleptic Gregorian calendar) with a weekday-consistency check when `%a` was
  parsed;
* the clock read `chrono::Utc::now().year()` becomes an explicit `curYear`
  parameter;
* the filesystem seen by the split writer is an association list from file
  name to the list of written lines; opening in append+create mode ensures the
  file exists, writing appends a line at the end.
-/

/-- The ten ASCII digit characters, indexed by value; used to model decimal
rendering of numbers (`format!` and chrono `%Y`/`%m`/`%d` zero-padded
output). Values `≥ 10` never occur. -/
def dChar : Nat → Char
  | 0 => '0' | 1 => '1' | 2 => '2' | 3 => '3' | 4 => '4'
  | 5 => '5' | 6 => '6' | 7 => '7' | 8 => '8' | 9 => '9'
  | _ => '*'

/-- Numeric value of an ASCII digit character (chrono's digit accumulation). -/
def digitVal (c : Char) : Nat := c.toNat - 48

/-- Fixed-width zero-padded decimal rendering (`w` digits, low digit last);
matches chrono's zero-padded printing of `%Y` (`w = 4`) and `%m`/`%d`
(`w = 2`) for values below `10^w`. -/
def rendN : Nat → Nat → List Char
  | 0, _ => []
  | w + 1, n => rendN w (n / 10) ++ [dChar (n % 10)]

/-- Unpadded decimal rendering, structurally recursive on a fuel bound (a
number below `10 ^ f` has at most `f` digits, so fuel `n + 1` always
suffices). -/
def rendDecAux : Nat → Nat → List Char
  | 0, _ => []
  | f + 1, n => if n < 10 then [dChar n] else rendDecAux f (n / 10) ++ [dChar (n % 10)]

/-- Unpadded decimal rendering, as produced by Rust `format!("{}", n)`. -/
def rendDec (n : Nat) : List Char := rendDecAux (n + 1) n

/-- Whitespace skipping, as chrono does for `Item::Space` and before numeric
items (restricted to the ASCII whitespace that can occur in log lines). -/
def skipWs : List Char → List Char
  | [] => []
  | c :: s => if c = ' ' ∨ c = '\t' ∨ c = '\n' ∨ c = '\r' then skipWs s else c :: s

/-- Greedy digit accumulation of at most `w` further digits, chrono
`scan::number` style. -/
def scanDigitsAcc : Nat → Nat → List Char → Nat × List Char
  | 0, acc, s => (acc, s)
  | _ + 1, acc, [] => (acc, [])
  | w + 1, acc, c :: s =>
    if c.isDigit then scanDigitsAcc w (acc * 10 + digitVal c) s else (acc, c :: s)

/-- Parse a decimal number of one to `w` digits (chrono numeric item of width
`w`); fails when the input does not start with a digit. -/
def scanNum (w : Nat) (s : List Char) : Option (Nat × List Char) :=
  match s with
  | [] => none
  | c :: s => if c.isDigit then some (scanDigitsAcc (w - 1) (digitVal c) s) else none

/-- Consume one or more digits, discarding the value (chrono `%s`: the parsed
timestamp is stored but ignored by `Parsed::to_naive_date`). -/
def scanAllDigits (s : List Char) : Option (List Char) :=
  match scanNum 1000000000 s with
  | some (_, r) => some r
  | none => none

/-- Consume exactly `n` digit characters, returning them and the rest
(the regex `\d{n}`). -/
def takeDigitsN : Nat → List Char → Option (List Char × List Char)
  | 0, s => some ([], s)
  | _ + 1, [] => none
  | n + 1, c :: s =>
    if c.isDigit then
      match takeDigitsN n s with
      | some (a, r) => some (c :: a, r)
      | none => none
    else none

/-- Match a literal character sequence at the start of the input, returning
the rest. -/
def strAt : List Char → List Char → Option (List Char)
  | [], s => some s
  | _ :: _, [] => none
  | c :: cs, x :: xs => if x = c then strAt cs xs else none

/-- Try a list of literal alternatives in order (leftmost-first), returning
the alternative consumed and the rest.  Used for alternations whose branches
are mutually exclusive, where committing to the first textual match agrees
with full leftmost-first semantics. -/
def matchFirstOf : List (List Char) → List Char → Option (List Char × List Char)
  | [], _ => none
  | a :: as, s =>
    match strAt a s with
    | some r => some (a, r)
    | none => matchFirstOf as s

/-- Scan for the leftmost position where the position matcher `m` succeeds
(`Regex::find` of an unanchored pattern), returning the matched text. -/
def findFirst (m : List Char → Option (List Char)) : List Char → Option (List Char)
  | [] => m []
  | c :: cs =>
    match m (c :: cs) with
    | some r => some r
    | none => findFirst m cs

/-- The `LogType` enumeration of `process.rs`. -/
inductive LogType where
  | Syslog
  | Iso
  | ApacheAccess
  | ApacheError
  | GrafanaLogs
deriving DecidableEq

/-- The twelve month abbreviations of the regexes and of chrono `%b`,
indexed 1 to 12. -/
def monthAbbr : Nat → List Char
  | 1 => ['J', 'a', 'n'] | 2 => ['F', 'e', 'b'] | 3 => ['M', 'a', 'r']
  | 4 => ['A', 'p', 'r'] | 5 => ['M', 'a', 'y'] | 6 => ['J', 'u', 'n']
  | 7 => ['J', 'u', 'l'] | 8 => ['A', 'u', 'g'] | 9 => ['S', 'e', 'p']
  | 10 => ['O', 'c', 't'] | 11 => ['N', 'o', 'v'] | 12 => ['D', 'e', 'c']
  | _ => []

/-- Month alternation `(Jan|Feb|Mar|...|Dec)` in source order. -/
def monthAbbrs : List (List Char) :=
  [monthAbbr 1, monthAbbr 2, monthAbbr 3, monthAbbr 4, monthAbbr 5, monthAbbr 6,
   monthAbbr 7, monthAbbr 8, monthAbbr 9, monthAbbr 10, monthAbbr 11, monthAbbr 12]

/-- Month alternation of the `ApacheError` regex, which contains an empty
alternative between `Feb` and `Mar` (`(Jan|Feb||Mar|...|Dec)` in the source). -/
def errMonthAlts : List (List Char) :=
  [monthAbbr 1, monthAbbr 2, [], monthAbbr 3, monthAbbr 4, monthAbbr 5, monthAbbr 6,
   monthAbbr 7, monthAbbr 8, monthAbbr 9, monthAbbr 10, monthAbbr 11, monthAbbr 12]

/-- Weekday abbreviations in the order of the `ApacheError` regex
`(Mon|Tue|Wed|Thu|Fri|Sat|Sun)`. -/
def wdAbbrsRe : List (List Char) :=
  [['M', 'o', 'n'], ['T', 'u', 'e'], ['W', 'e', 'd'], ['T', 'h', 'u'],
   ['F', 'r', 'i'], ['S', 'a', 't'], ['S', 'u', 'n']]

/-- Weekday abbreviations indexed from Sunday (`0`) to Saturday (`6`),
matching `weekdayOf` below; chrono `%a` accepts any of them. -/
def wdAbbrsSun : List (List Char) :=
  [['S', 'u', 'n'], ['M', 'o', 'n'], ['T', 'u', 'e'], ['W', 'e', 'd'],
   ['T', 'h', 'u'], ['F', 'r', 'i'], ['S', 'a', 't']]

/-- Matcher for the `Syslog` regex
`^(Jan|...|Dec) ([012 ]\d|3[01])`: month abbreviation, one space, then a
two-character day whose first character is `0`, `1`, `2` or a space, or `30`
or `31`.  Returns the matched text. -/
def syslogMatch (s : List Char) : Option (List Char) :=
  match matchFirstOf monthAbbrs s with
  | none => none
  | some (mo, r) =>
    match r with
    | ' ' :: c1 :: c2 :: _ =>
      if (c1 = '0' ∨ c1 = '1' ∨ c1 = '2' ∨ c1 = ' ') ∧ c2.isDigit = true then
        some (mo ++ [' ', c1, c2])
      else if c1 = '3' ∧ (c2 = '0' ∨ c2 = '1') then
        some (mo ++ [' ', c1, c2])
      else none
    | _ => none

/-- Matcher for the `Iso` regex `^\d{4}-\d{2}-\d{2}`. -/
def isoMatch (s : List Char) : Option (List Char) :=
  match takeDigitsN 4 s with
  | none => none
  | some (y4, r) =>
    match r with
    | '-' :: r2 =>
      match takeDigitsN 2 r2 with
      | none => none
      | some (m2, r3) =>
        match r3 with
        | '-' :: r4 =>
          match takeDigitsN 2 r4 with
          | none => none
          | some (d2, _) => some (y4 ++ '-' :: m2 ++ '-' :: d2)
        | _ => none
    | _ => none

/-- Position matcher for the (unanchored) `ApacheAccess` regex
`\[\d{2}/(Jan|...|Dec)/\d{4}:`. -/
def apacheAccessAt (s : List Char) : Option (List Char) :=
  match s with
  | '[' :: r =>
    match takeDigitsN 2 r with
    | none => none
    | some (dd, r1) =>
      match r1 with
      | '/' :: r2 =>
        match matchFirstOf monthAbbrs r2 with
        | none => none
        | some (mo, r3) =>
          match r3 with
          | '/' :: r4 =>
            match takeDigitsN 4 r4 with
            | none => none
            | some (yy, r5) =>
              match r5 with
              | ':' :: _ => some ('[' :: dd ++ '/' :: mo ++ '/' :: yy ++ [':'])
              | _ => none
          | _ => none
      | _ => none
  | _ => none

/-- Tail of the `ApacheError` regex after the month alternative:
`" \d{2} \d{2}:\d{2}:\d{2}.\d{6} \d{4}]"`, where `.` is the regex any-character
(anything but a newline).  Returns the consumed text. -/
def apacheErrTail (s : List Char) : Option (List Char) :=
  match s with
  | ' ' :: r =>
    match takeDigitsN 2 r with
    | none => none
    | some (dd, r1) =>
      match r1 with
      | ' ' :: r2 =>
        match takeDigitsN 2 r2 with
        | none => none
        | some (hh, r3) =>
          match r3 with
          | ':' :: r4 =>
            match takeDigitsN 2 r4 with
            | none => none
            | some (mi, r5) =>
              match r5 with
              | ':' :: r6 =>
                match takeDigitsN 2 r6 with
                | none => none
                | some (ss, r7) =>
                  match r7 with
                  | [] => none
                  | c :: r8 =>
                    if c = '\n' then none
                    else
                      match takeDigitsN 6 r8 with
                      | none => none
                      | some (f6, r9) =>
                        match r9 with
                        | ' ' :: r10 =>
                          match takeDigitsN 4 r10 with
                          | none => none
                          | some (yy, r11) =>
                            match r11 with
                            | ']' :: _ =>
                              some (' ' :: dd ++ ' ' :: hh ++ ':' :: mi ++ ':' :: ss ++
                                    c :: f6 ++ ' ' :: yy ++ [']'])
                            | _ => none
                        | _ => none
              | _ => none
          | _ => none
      | _ => none
  | _ => none

/-- Leftmost-first loop over the `ApacheError` month alternatives: an
alternative is kept only if the rest of the pattern also matches (the empty
alternative can succeed textually but force backtracking). -/
def apacheErrMonthLoop : List (List Char) → List Char → Option (List Char)
  | [], _ => none
  | a :: as, s =>
    match strAt a s with
    | some r =>
      match apacheErrTail r with
      | some t => some (a ++ t)
      | none => apacheErrMonthLoop as s
    | none => apacheErrMonthLoop as s

/-- Position matcher for the (unanchored) `ApacheError` regex
`\[(Mon|...|Sun) (Jan|Feb||Mar|...|Dec) \d{2} \d{2}:\d{2}:\d{2}.\d{6} \d{4}]`. -/
def apacheErrorAt (s : List Char) : Option (List Char) :=
  match s with
  | '[' :: r =>
    match matchFirstOf wdAbbrsRe r with
    | none => none
    | some (wd, r1) =>
      match r1 with
      | ' ' :: r2 =>
        match apacheErrMonthLoop errMonthAlts r2 with
        | some t => some ('[' :: wd ++ ' ' :: t)
        | none => none
      | _ => none
  | _ => none

/-- Matcher for the `GrafanaLogs` regex
`^t=\d{4}-\d{2}-\d{2}T\d{2}:\d{2}:\d{2}(\+|-)\d{4} lvl=`. -/
def grafanaMatch (s : List Char) : Option (List Char) :=
  match s with
  | 't' :: '=' :: r =>
    match takeDigitsN 4 r with
    | none => none
    | some (y4, r1) =>
      match r1 with
      | '-' :: r2 =>
        match takeDigitsN 2 r2 with
        | none => none
        | some (m2, r3) =>
          match r3 with
          | '-' :: r4 =>
            match takeDigitsN 2 r4 with
            | none => none
            | some (d2, r5) =>
              match r5 with
              | 'T' :: r6 =>
                match takeDigitsN 2 r6 with
                | none => none
                | some (h2, r7) =>
                  match r7 with
                  | ':' :: r8 =>
                    match takeDigitsN 2 r8 with
                    | none => none
                    | some (mi2, r9) =>
                      match r9 with
                      | ':' :: r10 =>
                        match takeDigitsN 2 r10 with
                        | none => none
                        | some (s2, r11) =>
                          match r11 with
                          | c :: r12 =>
                            if c = '+' ∨ c = '-' then
                              match takeDigitsN 4 r12 with
                              | none => none
                              | some (o4, r13) =>
                                match r13 with
                                | ' ' :: 'l' :: 'v' :: 'l' :: '=' :: _ =>
                                  some ('t' :: '=' :: y4 ++ '-' :: m2 ++ '-' :: d2 ++
                                        'T' :: h2 ++ ':' :: mi2 ++ ':' :: s2 ++
                                        c :: o4 ++ [' ', 'l', 'v', 'l', '='])
                                | _ => none
                            else none
                          | [] => none
                      | _ => none
                  | _ => none
              | _ => none
          | _ => none
      | _ => none
  | _ => none

/-- Embedding of `REGEXES[lt].find(line)`, returning the matched text of the
leftmost match (the `Syslog`, `Iso` and `GrafanaLogs` patterns are anchored
with `^`, the two Apache patterns are not). -/
def regexFind : LogType → List Char → Option (List Char)
  | .Syslog, s => syslogMatch s
  | .Iso, s => isoMatch s
  | .ApacheAccess, s => findFirst apacheAccessAt s
  | .ApacheError, s => findFirst apacheErrorAt s
  | .GrafanaLogs, s => grafanaMatch s

/-- Embedding of `REGEXES[lt].is_match(line)`. -/
def regexIsMatch (lt : LogType) (line : List Char) : Bool :=
  (regexFind lt line).isSome

/-- Embedding of `FileProcessor::determine_type`: the first line is matched
against the regexes in the fixed source order `Syslog, Iso, ApacheAccess,
ApacheError, GrafanaLogs`; the first match is kept, otherwise no type is
assigned. -/
def determine_type (line : List Char) : Option LogType :=
  if regexIsMatch .Syslog line then some .Syslog
  else if regexIsMatch .Iso line then some .Iso
  else if regexIsMatch .ApacheAccess line then some .ApacheAccess
  else if regexIsMatch .ApacheError line then some .ApacheError
  else if regexIsMatch .GrafanaLogs line then some .GrafanaLogs
  else none

/-- A calendar date as resolved by chrono's `Parsed::to_naive_date`
(the parsed years of this program are always in `0..=9999`). -/
structure YMD where
  y : Nat
  m : Nat
  d : Nat
deriving DecidableEq

/-- Proleptic Gregorian leap year, as used by `chrono::NaiveDate`. -/
def leapYear (y : Nat) : Bool :=
  decide (y % 4 = 0 ∧ (¬y % 100 = 0 ∨ y % 400 = 0))

/-- Number of days of a month (proleptic Gregorian). -/
def daysInMonth (y m : Nat) : Nat :=
  if m = 2 then (if leapYear y then 29 else 28)
  else if m = 4 ∨ m = 6 ∨ m = 9 ∨ m = 11 then 30
  else 31

/-- Embedding of `NaiveDate::from_ymd` validity: the date resolution step of
`Parsed::to_naive_date` (the year fits chrono's range since parsed years are
at most four digits). -/
def fromYmd (y m d : Nat) : Option YMD :=
  if 1 ≤ m ∧ m ≤ 12 ∧ 1 ≤ d ∧ d ≤ daysInMonth y m then some ⟨y, m, d⟩ else none

/-- Weekday of a proleptic Gregorian date, `0 = Sunday` to `6 = Saturday`
(Sakamoto's method, shifted by 400 years — a full Gregorian cycle — so that
the subtraction for January/February never underflows at year 0).  This is the
weekday `chrono::NaiveDate::weekday` reports, used by the weekday-consistency
check of `Parsed::to_naive_date`. -/
def weekdayOf (y m d : Nat) : Nat :=
  let t : List Nat := [0, 3, 2, 5, 0, 3, 5, 1, 4, 6, 2, 4]
  let y2 : Nat := if m < 3 then y + 399 else y + 400
  (y2 + y2 / 4 - y2 / 100 + y2 / 400 + t.getD (m - 1) 0 + d) % 7

/-- Parse an abbreviation from the list `alts`, returning `start` plus its
index (chrono name parsing; the abbreviations are mutually exclusive, so
trying them in order loses no match). -/
def parseAbbrAux : Nat → List (List Char) → List Char → Option (Nat × List Char)
  | _, [], _ => none
  | i, a :: as, s =>
    match strAt a s with
    | some r => some (i, r)
    | none => parseAbbrAux (i + 1) as s

/-- Chrono `%b`: an English month abbreviation, value 1 to 12. -/
def parseMonthAbbr (s : List Char) : Option (Nat × List Char) :=
  parseAbbrAux 1 monthAbbrs s

/-- Chrono `%a`: an English weekday abbreviation, numbered like `weekdayOf`. -/
def parseWeekdayAbbr (s : List Char) : Option (Nat × List Char) :=
  parseAbbrAux 0 wdAbbrsSun s

/-- Chrono parse with format `"%b %d %Y"` (the `Syslog` branch), followed by
`to_naive_date` resolution. -/
def parseSyslogStr (s : List Char) : Option YMD :=
  match parseMonthAbbr s with
  | none => none
  | some (m, r) =>
    match scanNum 2 (skipWs (skipWs r)) with
    | none => none
    | some (d, r1) =>
      match scanNum 4 (skipWs (skipWs r1)) with
      | none => none
      | some (y, r2) => if r2 = [] then fromYmd y m d else none

/-- Chrono parse with format `"%Y-%m-%d"` (the `Iso` branch). -/
def parseIsoStr (s : List Char) : Option YMD :=
  match scanNum 4 (skipWs s) with
  | none => none
  | some (y, r) =>
    match r with
    | '-' :: r1 =>
      match scanNum 2 (skipWs r1) with
      | none => none
      | some (m, r2) =>
        match r2 with
        | '-' :: r3 =>
          match scanNum 2 (skipWs r3) with
          | none => none
          | some (d, r4) => if r4 = [] then fromYmd y m d else none
        | _ => none
    | _ => none

/-- Chrono parse with format `"[%d/%b/%Y:"` (the `ApacheAccess` branch). -/
def parseApacheAccessStr (s : List Char) : Option YMD :=
  match s with
  | '[' :: r =>
    match scanNum 2 (skipWs r) with
    | none => none
    | some (d, r1) =>
      match r1 with
      | '/' :: r2 =>
        match parseMonthAbbr r2 with
        | none => none
        | some (m, r3) =>
          match r3 with
          | '/' :: r4 =>
            match scanNum 4 (skipWs r4) with
            | none => none
            | some (y, r5) =>
              match r5 with
              | [':'] => fromYmd y m d
              | _ => none
          | _ => none
      | _ => none
  | _ => none

/-- Chrono parse with format `"[%a %b %d %H:%M:%s%.6f %Y]"` (the
`ApacheError` branch; note the `%s` Unix-timestamp item in place of `%S` in
the source).  The hour, minute and timestamp values are consumed but ignored
by `to_naive_date`; the parsed weekday must agree with the resolved date. -/
def parseApacheErrorStr (s : List Char) : Option YMD :=
  match s with
  | '[' :: r =>
    match parseWeekdayAbbr r with
    | none => none
    | some (wd, r1) =>
      match parseMonthAbbr (skipWs r1) with
      | none => none
      | some (m, r2) =>
        match scanNum 2 (skipWs (skipWs r2)) with
        | none => none
        | some (d, r3) =>
          match scanNum 2 (skipWs (skipWs r3)) with
          | none => none
          | some (_, r4) =>
            match r4 with
            | ':' :: r5 =>
              match scanNum 2 (skipWs r5) with
              | none => none
              | some (_, r6) =>
                match r6 with
                | ':' :: r7 =>
                  match scanAllDigits r7 with
                  | none => none
                  | some r8 =>
                    match r8 with
                    | '.' :: r9 =>
                      match takeDigitsN 6 r9 with
                      | none => none
                      | some (_, r10) =>
                        match scanNum 4 (skipWs (skipWs r10)) with
                        | none => none
                        | some (y, r11) =>
                          match r11 with
                          | [']'] =>
                            match fromYmd y m d with
                            | none => none
                            | some ymd =>
                              if weekdayOf y m d = wd then some ymd else none
                          | _ => none
                    | _ => none
                | _ => none
            | _ => none
  | _ => none

/-- The minutes of a chrono `%z` offset: an optional colon followed by two
digits. -/
def tzMinutes (r : List Char) : Option (List Char × List Char) :=
  match r with
  | ':' :: r14 => takeDigitsN 2 r14
  | r13 => takeDigitsN 2 r13

/-- Chrono parse with format `"t=%Y-%m-%dT%H:%M:%S%z lvl="` (the
`GrafanaLogs` branch).  The time-of-day and offset are consumed but ignored
by `to_naive_date`; `%z` is a sign, two digits, an optional colon and two
digits. -/
def parseGrafanaStr (s : List Char) : Option YMD :=
  match s with
  | 't' :: '=' :: r =>
    match scanNum 4 (skipWs r) with
    | none => none
    | some (y, r1) =>
      match r1 with
      | '-' :: r2 =>
        match scanNum 2 (skipWs r2) with
        | none => none
        | some (m, r3) =>
          match r3 with
          | '-' :: r4 =>
            match scanNum 2 (skipWs r4) with
            | none => none
            | some (d, r5) =>
              match r5 with
              | 'T' :: r6 =>
                match scanNum 2 (skipWs r6) with
                | none => none
                | some (_, r7) =>
                  match r7 with
                  | ':' :: r8 =>
                    match scanNum 2 (skipWs r8) with
                    | none => none
                    | some (_, r9) =>
                      match r9 with
                      | ':' :: r10 =>
                        match scanNum 2 (skipWs r10) with
                        | none => none
                        | some (_, r11) =>
                          match r11 with
                          | c :: r12 =>
                            if c = '+' ∨ c = '-' then
                              match takeDigitsN 2 r12 with
                              | none => none
                              | some (_, r13) =>
                                match tzMinutes r13 with
                                | none => none
                                | some (_, r15) =>
                                  match skipWs r15 with
                                  | 'l' :: 'v' :: 'l' :: '=' :: r16 =>
                                    if r16 = [] then fromYmd y m d else none
                                  | _ => none
                            else none
                          | [] => none
                      | _ => none
                  | _ => none
              | _ => none
          | _ => none
      | _ => none
  | _ => none

/-- Chrono formatting with `"%Y-%m-%d"` (`StrftimeItems` of the source) for
years `0..=9999`: four-digit year, two-digit month and day, zero padded. -/
def isoChars (x : YMD) : List Char :=
  rendN 4 x.y ++ '-' :: rendN 2 x.m ++ '-' :: rendN 2 x.d

/-- Embedding of `determine_date` of `process.rs`: find the leftmost match of
the format's regex in the line (no match means no date), parse the matched
text with the format's chrono template — appending a space and the current
UTC year, here the explicit `curYear`, for `Syslog` — fall back to the
sentinel `from_ymd(0, 1, 1)` when parsing fails, and format the result as
`%Y-%m-%d`. -/
def determine_date (lt : LogType) (curYear : Nat) (line : List Char) : Option String :=
  match regexFind lt line with
  | none => none
  | some matched =>
    let parsed : Option YMD :=
      match lt with
      | .Syslog => parseSyslogStr (matched ++ ' ' :: rendDec curYear)
      | .Iso => parseIsoStr matched
      | .ApacheAccess => parseApacheAccessStr matched
      | .ApacheError => parseApacheErrorStr matched
      | .GrafanaLogs => parseGrafanaStr matched
    some (String.mk (isoChars (parsed.getD ⟨0, 1, 1⟩)))

/-- The output filesystem seen by the split writer: an association list from
file name to the list of lines written, in order of file creation. -/
abbrev FS : Type := List (String × List String)

/-- Contents of a file (a file never opened reads as empty, matching
append+create semantics). -/
def FS.read : FS → String → List String
  | [], _ => []
  | (m, ls) :: fs, n => if m = n then ls else FS.read fs n

/-- Opening a file in append+create mode: the file now exists, its content is
kept. -/
def ensureFile : FS → String → FS
  | [], n => [(n, [])]
  | (m, ls) :: fs, n => if m = n then (m, ls) :: fs else (m, ls) :: ensureFile fs n

/-- Appending one line at the end of a file (`writeln!` on an append-mode
writer). -/
def appendLine : FS → String → String → FS
  | [], n, l => [(n, [l])]
  | (m, ls) :: fs, n, l =>
    if m = n then (m, ls ++ [l]) :: fs else (m, ls) :: appendLine fs n l

/-- The writer state of the `try_fold` in `FileProcessor::process`: the date
of the currently open output file (`odp`, initially the empty string) and the
name of the currently open output file (`nbufw`, initially absent). -/
abbrev SplitSt : Type := String × Option String

/-- The writer-state transition of one `try_fold` step, which does not depend
on the filesystem: when a date is present and differs from `odp`, the writer
is re-targeted at `<out>-<date>`; otherwise the state is unchanged. -/
def stepSt (out : String) (st : SplitSt) (p : Option String × String) : SplitSt :=
  match p.1 with
  | some dp => if dp ≠ st.1 then (dp, some (out ++ "-" ++ dp)) else st
  | none => st

/-- One iteration of the `try_fold` of `FileProcessor::process` on an
error-free step: open (append+create) a new output file exactly when the
line's date is present and differs from the current one, then write the line
to the currently open writer if there is one — note that the write is not
guarded by the presence of a date. -/
def splitStep (out : String) (st : SplitSt) (fs : FS) (p : Option String × String) :
    SplitSt × FS :=
  let st1 := stepSt out st p
  let fs1 :=
    match p.1 with
    | some dp => if dp ≠ st.1 then ensureFile fs (out ++ "-" ++ dp) else fs
    | none => fs
  match st1.2 with
  | some f => (st1, appendLine fs1 f p.2)
  | none => (st1, fs1)

/-- The split writer: the whole `try_fold` over the (optional date, line)
pairs of one file, on an error-free run. -/
def splitWriter (out : String) : List (Option String × String) → SplitSt → FS → SplitSt × FS
  | [], st, fs => (st, fs)
  | p :: ps, st, fs =>
    let (st1, fs1) := splitStep out st fs p
    splitWriter out ps st1 fs1

/-- The lines one step appends to file `f`, which depends only on the writer
state and the pair, never on the filesystem. -/
def stepDelta (out : String) (st : SplitSt) (p : Option String × String) (f : String) :
    List String :=
  match (stepSt out st p).2 with
  | some g => if f = g then [p.2] else []
  | none => []

/-- Outcome oracle for the fallible I/O operations of
`FileProcessor::process`: directory creation, opening the source, the `n`-th
output-file open, the `n`-th `writeln!`, and the final `remove_file`. -/
structure IOOracle where
  mkdirOk : Bool
  openSrcOk : Bool
  openOutOk : Nat → Bool
  writeOk : Nat → Bool
  removeOk : Bool

/-- The `try_fold` of `FileProcessor::process` with fallible opens and
writes: an open or write error aborts the fold (`?`), returning the
filesystem reached so far. -/
def splitRunExc (o : IOOracle) (out : String) :
    List (Option String × String) → SplitSt → FS → Nat → Nat → Except FS FS
  | [], _, fs, _, _ => .ok fs
  | p :: ps, st, fs, nO, nW =>
    match p.1 with
    | some dp =>
      if dp ≠ st.1 then
        if o.openOutOk nO then
          let st1 : SplitSt := (dp, some (out ++ "-" ++ dp))
          let fs1 := ensureFile fs (out ++ "-" ++ dp)
          match st1.2 with
          | some f =>
            if o.writeOk nW then
              splitRunExc o out ps st1 (appendLine fs1 f p.2) (nO + 1) (nW + 1)
            else .error fs1
          | none => splitRunExc o out ps st1 fs1 (nO + 1) nW
        else .error fs
      else
        match st.2 with
        | some f =>
          if o.writeOk nW then splitRunExc o out ps st (appendLine fs f p.2) nO (nW + 1)
          else .error fs
        | none => splitRunExc o out ps st fs nO nW
    | none =>
      match st.2 with
      | some f =>
        if o.writeOk nW then splitRunExc o out ps st (appendLine fs f p.2) nO (nW + 1)
        else .error fs
      | none => splitRunExc o out ps st fs nO nW

/-- Result of processing one file: the error if the processing aborted, the
output filesystem, and whether the source file still exists. -/
structure ProcResult where
  err : Option Unit
  fs : FS
  srcExists : Bool

/-- Whether a line read from the `lines()` iterator succeeded. -/
def readOk : Except Unit String → Bool
  | .ok _ => true
  | .error _ => false

/-- Embedding of `FileProcessor::process`: report and return without deleting
when no log type was determined; otherwise create the output directory, open
the source, map each successfully read line to its optional date — read
errors are silently dropped by the `filter_map(|line| line.map(..).ok())` —
run the split-writer fold, and delete the source file only when everything up
to and including `remove_file` succeeded. -/
def processOne (o : IOOracle) (lt : Option LogType) (curYear : Nat)
    (reads : List (Except Unit String)) (out : String) (fs : FS) : ProcResult :=
  match lt with
  | none => ⟨none, fs, true⟩
  | some t =>
    if ¬o.mkdirOk then ⟨some (), fs, true⟩
    else if ¬o.openSrcOk then ⟨some (), fs, true⟩
    else
      let pairs := reads.filterMap fun r =>
        match r with
        | .ok l => some (determine_date t curYear l.toList, l)
        | .error _ => none
      match splitRunExc o out pairs ("", none) fs 0 0 with
      | .error fsE => ⟨some (), fsE, true⟩
      | .ok fsO => if o.removeOk then ⟨none, fsO, false⟩ else ⟨some (), fsO, true⟩

/-- Split a file name at its last dot: `some (before, after)` when the name
contains a dot, `none` otherwise. -/
def splitLastDot : List Char → Option (List Char × List Char)
  | [] => none
  | c :: cs =>
    match splitLastDot cs with
    | some (b, a) => some (c :: b, a)
    | none => if c = '.' then some ([], cs) else none

/-- Rust `Path::extension` on a file name: the portion after the last dot,
except that a name with no dot, or a name that begins with its only dot
(a hidden file such as `.1`), has no extension. -/
def rustExtOfName (f : String) : Option String :=
  match splitLastDot f.toList with
  | some (b, a) => if b = [] then none else some (String.mk a)
  | none => none

/-- Rust `Path::with_extension("")` on a file name: truncate at the last dot
when the name has an extension, otherwise keep the name. -/
def stripExtName (f : String) : String :=
  match splitLastDot f.toList with
  | some (b, _) => if b = [] then f else String.mk b
  | none => f

/-- Embedding of `NUMBER_REGEX` (`^\d+$`): one or more digits and nothing
else. -/
def numberRegexMatch (e : String) : Bool :=
  decide (e.toList ≠ [] ∧ ∀ c ∈ e.toList, c.isDigit = true)

/-- Paths are lists of components; the last component is the file name. -/
abbrev RPath : Type := List String

/-- The filter of `all_files`: a walked entry is kept exactly when its
extension exists, is valid UTF-8 (always true here) and matches
`NUMBER_REGEX`. -/
def allFilesKeeps (entry : RPath) : Bool :=
  match entry.getLast? with
  | none => false
  | some f =>
    match rustExtOfName f with
    | some e => numberRegexMatch e
    | none => false

/-- Rust `Path::with_extension("")` on a whole path: rewrite the last
component. -/
def withExtEmpty : RPath → RPath
  | [] => []
  | [f] => [stripExtName f]
  | c :: cs => c :: withExtEmpty cs

/-- Rust `Path::strip_prefix`: remove the leading components when they equal
the given root. -/
def stripRoot : RPath → RPath → Option RPath
  | [], e => some e
  | _ :: _, [] => none
  | i :: is, e :: es => if e = i then stripRoot is es else none

/-- Embedding of the per-entry decision of `all_files`: `some out` when
`one_file` is invoked on the entry with output location `out`, `none` when
the entry is skipped (filtered out, or `strip_prefix` failed). -/
def allFilesAction (inroot outroot entry : RPath) : Option RPath :=
  if allFilesKeeps entry then
    match stripRoot inroot entry with
    | some suffix => some (withExtEmpty (outroot ++ suffix))
    | none => none
  else none

/-- Appending a fixed string on the left preserves distinctness. -/
theorem string_append_ne (a : String) {b c : String} (h : b ≠ c) : a ++ b ≠ a ++ c := by
  intro he
  apply h
  apply String.ext
  have hd := congrArg String.data he
  rw [String.data_append, String.data_append] at hd
  exact List.append_cancel_left hd

/-- C3: on a line whose date substring is located but does not parse into a
valid calendar date, `determine_date` returns the sentinel — but the sentinel
is `NaiveDate::from_ymd(0, 1, 1)`, which `%Y-%m-%d` formats as `0000-01-01`,
not the `0001-01-01` announced by the specification and by the function's own
documentation comment. -/
theorem C3_sentinel_is_year_zero :
    determine_date .Iso 2024 (String.toList "9999-99-99 tampered line") =
      some "0000-01-01" ∧ ("0000-01-01" : String) ≠ "0001-01-01" := by
  constructor
  · rfl
  · decide

/-- C9: the `Syslog` pattern `^(Jan|...) ([012 ]\d|3[01])` requires a
two-character day field, so the single-space line `"Jan 5 ..."` of the claim
matches nothing and yields no date at all, not `2024-01-05`. -/
theorem C9_single_space_no_match :
    determine_date .Syslog 2024 (String.toList "Jan 5 myhost prog: message") = none := by
  rfl

/-- C9 (amended): a `Syslog` line whose day is padded to two characters with
a space, `"Jan  5 ..."`, processed when the current UTC year is 2024, yields
`2024-01-05`. -/
theorem C9_amended_padded_day (rest : List Char) :
    determine_date .Syslog 2024
      ('J' :: 'a' :: 'n' :: ' ' :: ' ' :: '5' :: ' ' :: rest) = some "2024-01-05" := by
  rfl

/-- C10: for every `LogType` other than `Syslog`, `determine_date` does not
depend on the current year (only the `Syslog` branch reads the clock), hence
two invocations on the same line always agree. -/
theorem C10_deterministic_without_clock (lt : LogType) (h : lt ≠ .Syslog)
    (y1 y2 : Nat) (line : List Char) :
    determine_date lt y1 line = determine_date lt y2 line := by
  cases lt
  · exact absurd rfl h
  all_goals rfl

/-- Witness for C10 at a concrete format, year pair and line. -/
theorem C10_deterministic_without_clock_witness :
    determine_date .Iso 1999 (String.toList "2020-05-12 x") =
      determine_date .Iso 2024 (String.toList "2020-05-12 x") :=
  C10_deterministic_without_clock .Iso (by decide) 1999 2024 (String.toList "2020-05-12 x")

/-- C4: `determine_type` assigns to the first line the first format in the
fixed source order `Syslog, Iso, ApacheAccess, ApacheError, GrafanaLogs`
whose detection regex matches, assigns no format when none matches, and
assigns no format to the empty first line of an empty file; being a function,
it assigns at most one format. -/
theorem C4_first_matching_type :
    (∀ line : List Char,
      (determine_type line = some .Syslog ↔ regexIsMatch .Syslog line = true) ∧
      (determine_type line = some .Iso ↔
        regexIsMatch .Syslog line = false ∧ regexIsMatch .Iso line = true) ∧
      (determine_type line = some .ApacheAccess ↔
        regexIsMatch .Syslog line = false ∧ regexIsMatch .Iso line = false ∧
        regexIsMatch .ApacheAccess line = true) ∧
      (determine_type line = some .ApacheError ↔
        regexIsMatch .Syslog line = false ∧ regexIsMatch .Iso line = false ∧
        regexIsMatch .ApacheAccess line = false ∧ regexIsMatch .ApacheError line = true) ∧
      (determine_type line = some .GrafanaLogs ↔
        regexIsMatch .Syslog line = false ∧ regexIsMatch .Iso line = false ∧
        regexIsMatch .ApacheAccess line = false ∧ regexIsMatch .ApacheError line = false ∧
        regexIsMatch .GrafanaLogs line = true) ∧
      (determine_type line = none ↔
        regexIsMatch .Syslog line = false ∧ regexIsMatch .Iso line = false ∧
        regexIsMatch .ApacheAccess line = false ∧ regexIsMatch .ApacheError line = false ∧
        regexIsMatch .GrafanaLogs line = false)) ∧
    determine_type [] = none := by
  constructor
  · intro line
    cases h1 : regexIsMatch .Syslog line <;>
      cases h2 : regexIsMatch .Iso line <;>
        cases h3 : regexIsMatch .ApacheAccess line <;>
          cases h4 : regexIsMatch .ApacheError line <;>
            cases h5 : regexIsMatch .GrafanaLogs line <;>
              simp [determine_type, h1, h2, h3, h4, h5]
  · rfl

/-- C1 (counterexample): in `FileProcessor::process`, the `writeln!` is not
guarded by the presence of a date, so a line for which `determine_date`
returns no date is still appended to the output file left open by an earlier
dated line: with an `Iso` file whose second line has no date, that second
line ends up in the first line's dated output file. -/
theorem C1_dateless_line_is_written :
    determine_date .Iso 2024 (String.toList "no date on this line") = none ∧
    (splitWriter "p"
        [(determine_date .Iso 2024 (String.toList "2020-05-12 alpha"), "2020-05-12 alpha"),
         (determine_date .Iso 2024 (String.toList "no date on this line"), "no date on this line")]
        ("", none) []).2 =
      [("p-2020-05-12", ["2020-05-12 alpha", "no date on this line"])] := by
  constructor
  · rfl
  · rfl

/-- C1 (amended): a line with no determinable date opens no writer and is
dropped while no output writer is open, but once a writer is open from an
earlier dated line it is appended to that currently open file; in particular
a run whose lines all lack dates writes nothing at all. -/
theorem C1_amended_dateless_only_to_open_writer :
    (∀ (out : String) (st : SplitSt) (fs : FS) (line : String),
      splitStep out st fs (none, line) =
        (st, match st.2 with
             | some f => appendLine fs f line
             | none => fs)) ∧
    (∀ (out : String) (pairs : List (Option String × String)) (fs : FS),
      (∀ p ∈ pairs, p.1 = none) → (splitWriter out pairs ("", none) fs).2 = fs) := by
  constructor
  · intro out st fs line
    cases hst : st.2 <;> simp [splitStep, stepSt, hst]
  · intro out pairs
    induction pairs with
    | nil => intro fs _; rfl
    | cons p ps ih =>
      intro fs h
      obtain ⟨dp, line⟩ := p
      have hdp : dp = none := h (dp, line) (by simp)
      subst hdp
      have hrest : ∀ q ∈ ps, q.1 = none := fun q hq => h q (by simp [hq])
      simpa [splitWriter, splitStep, stepSt] using ih fs hrest

/-- Witness for the amended C1 at concrete inputs. -/
theorem C1_amended_dateless_only_to_open_writer_witness :
    (splitWriter "p" [(none, "x"), (none, "y")] ("", none) [("q", ["a"])]).2 =
      [("q", ["a"])] :=
  C1_amended_dateless_only_to_open_writer.2 "p" [(none, "x"), (none, "y")]
    [("q", ["a"])] (by decide)

/-- C5: on an input whose lines carry dates `D1, D1, D2, D1` in that order,
the split writer produces exactly the two files `<out>-D1` (holding lines 1,
2 and then 4, appended after the writer is re-opened in append mode) and
`<out>-D2` (holding line 3); a writer is opened, and the previous one
dropped, exactly at the two date changes. -/
theorem C5_reopen_on_date_change (out D1 D2 l1 l2 l3 l4 : String)
    (h1 : D1 ≠ "") (h12 : D1 ≠ D2) :
    (splitWriter out [(some D1, l1), (some D1, l2), (some D2, l3), (some D1, l4)]
        ("", none) []).2 =
      [(out ++ "-" ++ D1, [l1, l2, l4]), (out ++ "-" ++ D2, [l3])] := by
  have h21 : D2 ≠ D1 := Ne.symm h12
  have hn : out ++ "-" ++ D1 ≠ out ++ "-" ++ D2 := string_append_ne (out ++ "-") h12
  have hn2 : out ++ "-" ++ D2 ≠ out ++ "-" ++ D1 := Ne.symm hn
  simp [splitWriter, splitStep, stepSt, ensureFile, appendLine, h1, h12, h21, hn, hn2]

/-- Witness for C5 at concrete dates and lines. -/
theorem C5_reopen_on_date_change_witness :
    (splitWriter "p"
        [(some "2020-01-01", "a"), (some "2020-01-01", "b"),
         (some "2020-01-02", "c"), (some "2020-01-01", "d")] ("", none) []).2 =
      [("p-2020-01-01", ["a", "b", "d"]), ("p-2020-01-02", ["c"])] :=
  C5_reopen_on_date_change "p" "2020-01-01" "2020-01-02" "a" "b" "c" "d"
    (by decide) (by decide)

/-- Reading after an append: the appended line lands at the end of the named
file and nowhere else. -/
theorem FS.read_appendLine (fs : FS) (n l f : String) :
    FS.read (appendLine fs n l) f = FS.read fs f ++ (if f = n then [l] else []) := by
  induction fs with
  | nil =>
    by_cases h : f = n
    · subst h; simp [appendLine, FS.read]
    · simp [appendLine, FS.read, h, Ne.symm h]
  | cons e fs ih =>
    obtain ⟨m, ls⟩ := e
    by_cases hm : m = n
    · subst hm
      by_cases hf : m = f
      · subst hf; simp [appendLine, FS.read]
      · simp [appendLine, FS.read, hf, Ne.symm hf]
    · by_cases hf : m = f
      · subst hf
        simp [appendLine, FS.read, hm, Ne.symm hm]
      · simp [appendLine, FS.read, hm, hf, ih]

/-- Opening in append+create mode never changes any file's contents. -/
theorem FS.read_ensureFile (fs : FS) (n f : String) :
    FS.read (ensureFile fs n) f = FS.read fs f := by
  induction fs with
  | nil =>
    by_cases h : n = f
    · subst h; simp [ensureFile, FS.read]
    · simp [ensureFile, FS.read, h]
  | cons e fs ih =>
    obtain ⟨m, ls⟩ := e
    by_cases hm : m = n
    · subst hm; simp [ensureFile, FS.read]
    · by_cases hf : m = f
      · subst hf; simp [ensureFile, FS.read, hm]
      · simp [ensureFile, FS.read, hm, hf, ih]

/-- The writer state after one step does not depend on the filesystem. -/
theorem splitStep_fst (out : String) (st : SplitSt) (fs : FS) (p : Option String × String) :
    (splitStep out st fs p).1 = stepSt out st p := by
  obtain ⟨dp, line⟩ := p
  cases dp with
  | none => cases hst : st.2 <;> simp [splitStep, stepSt, hst]
  | some d =>
    by_cases hd : d ≠ st.1 <;> cases hst : st.2 <;> simp [splitStep, stepSt, hd, hst]

/-- What one step appends to a file depends only on the writer state and the
pair, never on the filesystem. -/
theorem splitStep_read (out : String) (st : SplitSt) (fs : FS)
    (p : Option String × String) (f : String) :
    FS.read (splitStep out st fs p).2 f = FS.read fs f ++ stepDelta out st p f := by
  obtain ⟨dp, line⟩ := p
  cases dp with
  | none =>
    cases hst : st.2 <;>
      simp [splitStep, stepSt, stepDelta, hst, FS.read_appendLine]
  | some d =>
    by_cases hd : d ≠ st.1
    · simp [splitStep, stepSt, stepDelta, hd, FS.read_appendLine, FS.read_ensureFile]
    · cases hst : st.2 <;>
        simp [splitStep, stepSt, stepDelta, hd, hst, FS.read_appendLine]

/-- A split-writer run appends, to every file, a sequence of lines that is a
function of the initial writer state and the input pairs only: whatever the
initial filesystem, the run extends each file by the same suffix. -/
theorem splitWriter_delta (pairs : List (Option String × String)) (out : String)
    (st : SplitSt) (f : String) :
    ∃ delta, ∀ fs : FS, FS.read ((splitWriter out pairs st fs).2) f = FS.read fs f ++ delta := by
  induction pairs generalizing st with
  | nil => exact ⟨[], fun fs => by simp [splitWriter]⟩
  | cons p ps ih =>
    obtain ⟨delta, hd⟩ := ih (stepSt out st p)
    refine ⟨stepDelta out st p f ++ delta, fun fs => ?_⟩
    have hstep : splitWriter out (p :: ps) st fs =
        splitWriter out ps (splitStep out st fs p).1 (splitStep out st fs p).2 := rfl
    rw [hstep, splitStep_fst, hd, splitStep_read, List.append_assoc]

/-- C7: running the split writer twice over the same pairs with the same
output location appends rather than overwrites: after the second run every
file holds the first run's lines followed by a duplicate copy of them (the
operation is not idempotent and never truncates). -/
theorem C7_second_run_duplicates (out : String) (pairs : List (Option String × String))
    (f : String) :
    FS.read ((splitWriter out pairs ("", none)
        ((splitWriter out pairs ("", none) []).2)).2) f =
      FS.read ((splitWriter out pairs ("", none) []).2) f ++
        FS.read ((splitWriter out pairs ("", none) []).2) f := by
  obtain ⟨delta, hd⟩ := splitWriter_delta pairs out ("", none) f
  have honce : FS.read ((splitWriter out pairs ("", none) []).2) f = delta := by
    have := hd []
    simpa [FS.read] using this
  rw [hd ((splitWriter out pairs ("", none) []).2), honce]

/-- Entries on which `f` returns `none` can be filtered away without changing
a `filterMap`. -/
theorem filterMap_filter_readOk {α : Type} (f : Except Unit String → Option α)
    (hf : ∀ e, f (.error e) = none) (l : List (Except Unit String)) :
    List.filterMap f (l.filter readOk) = List.filterMap f l := by
  induction l with
  | nil => rfl
  | cons r rs ih =>
    cases r with
    | ok v => simp [readOk, List.filter, List.filterMap_cons, ih]
    | error e => simp [readOk, List.filter, List.filterMap_cons, hf, ih]

/-- Oracle on which every I/O operation succeeds. -/
def allOkOracle : IOOracle := ⟨true, true, fun _ => true, fun _ => true, true⟩

/-- C6 (counterexample): per-line read errors do not abort
`FileProcessor::process` — `filter_map(|line| line.map(..).ok())` silently
drops them — so a run over a classified file whose reads include an I/O
error still completes and still deletes the source file, contrary to the
claim that any read error leaves the source in place. -/
theorem C6_read_error_still_deletes :
    (processOne allOkOracle (some .Iso) 2024
        [.ok "2020-05-12 a", .error (), .ok "2020-05-13 b"] "p" []).err = none ∧
    (processOne allOkOracle (some .Iso) 2024
        [.ok "2020-05-12 a", .error (), .ok "2020-05-13 b"] "p" []).srcExists = false ∧
    List.any [.ok "2020-05-12 a", .error (), .ok "2020-05-13 b"]
      (fun r => !readOk r) = true := by
  refine ⟨rfl, rfl, rfl⟩

/-- C6 (amended): for a classified file, the source is deleted exactly when
the run reports no error, i.e. when directory creation, the source open,
every output open and write, and the final `remove_file` all succeed;
per-line read errors are not part of this condition: the offending lines are
silently dropped and the run is unchanged if failed reads are removed from
the input. -/
theorem C6_amended_delete_iff_no_error (o : IOOracle) (t : LogType) (cy : Nat)
    (reads : List (Except Unit String)) (out : String) (fs : FS) :
    ((processOne o (some t) cy reads out fs).srcExists = false ↔
      (processOne o (some t) cy reads out fs).err = none) ∧
    processOne o (some t) cy reads out fs =
      processOne o (some t) cy (reads.filter readOk) out fs := by
  constructor
  · unfold processOne
    cases hm : o.mkdirOk <;> cases hs : o.openSrcOk <;> simp [hm, hs]
    split
    · simp
    · cases hrem : o.removeOk <;> simp [hrem]
  · have hpairs := filterMap_filter_readOk
      (fun r =>
        match r with
        | .ok l => some (determine_date t cy l.toList, l)
        | .error _ => none) (fun e => rfl) reads
    simp only [processOne]
    rw [hpairs]

/-- Stripping a root from a path it prefixes yields the relative remainder
(`Path::strip_prefix` on a walked descendant). -/
theorem stripRoot_append (root rel : RPath) : stripRoot root (root ++ rel) = some rel := by
  induction root with
  | nil => rfl
  | cons c cs ih => simp [stripRoot, ih]

/-- Rewriting the last component commutes with prepending directories. -/
theorem withExtEmpty_append (out rel : RPath) (h : rel ≠ []) :
    withExtEmpty (out ++ rel) = out ++ withExtEmpty rel := by
  induction out with
  | nil => rfl
  | cons c cs ih =>
    cases hcs : cs ++ rel with
    | nil => exact absurd (List.append_eq_nil.mp hcs).2 h
    | cons x xs =>
      calc withExtEmpty ((c :: cs) ++ rel) = c :: withExtEmpty (cs ++ rel) := by
            rw [List.cons_append, hcs]; rfl
        _ = c :: (cs ++ withExtEmpty rel) := by rw [ih]
        _ = (c :: cs) ++ withExtEmpty rel := rfl

/-- Definition following the words of the specification: a file is an
eligible input when its extension is purely numeric, one or more digits. -/
def specNumericExtension (entry : RPath) : Prop :=
  ∃ f e, entry.getLast? = some f ∧ rustExtOfName f = some e ∧
    e.toList ≠ [] ∧ ∀ c ∈ e.toList, c.isDigit = true

/-- C8: a walked entry `inroot ++ rel` is handed to `one_file` exactly when
its extension is purely numeric (one or more digits), and in that case the
output location is the entry's path relative to the input root, re-rooted at
the output root, with the numeric extension stripped. -/
theorem C8_numeric_extension_and_output (inroot outroot rel : RPath) (h : rel ≠ []) :
    (allFilesAction inroot outroot (inroot ++ rel) =
      if allFilesKeeps rel then some (outroot ++ withExtEmpty rel) else none) ∧
    (allFilesKeeps rel = true ↔ specNumericExtension rel) := by
  constructor
  · have hlast : (inroot ++ rel).getLast? = rel.getLast? :=
      List.getLast?_append_of_ne_nil inroot h
    have hkeep : allFilesKeeps (inroot ++ rel) = allFilesKeeps rel := by
      simp [allFilesKeeps, hlast]
    unfold allFilesAction
    rw [hkeep, stripRoot_append]
    by_cases hk : allFilesKeeps rel = true <;> simp [hk, withExtEmpty_append _ _ h]
  · unfold allFilesKeeps specNumericExtension
    cases hlast : rel.getLast? with
    | none => exact absurd (List.getLast?_eq_none_iff.mp hlast) h
    | some f =>
      cases hext : rustExtOfName f with
      | none => simp [hext]
      | some e => simp [hext, numberRegexMatch]

/-- Witness for C8 on a concrete rotated log file. -/
theorem C8_numeric_extension_and_output_witness :
    (allFilesAction ["var", "log"] ["out"] (["var", "log"] ++ ["nginx", "access.log.1"]) =
      if allFilesKeeps ["nginx", "access.log.1"] then
        some (["out"] ++ withExtEmpty ["nginx", "access.log.1"])
      else none) ∧
    (allFilesKeeps ["nginx", "access.log.1"] = true ↔
      specNumericExtension ["nginx", "access.log.1"]) :=
  C8_numeric_extension_and_output ["var", "log"] ["out"] ["nginx", "access.log.1"]
    (by decide)

/-- Digit characters are digits. -/
theorem dChar_isDigit (k : Nat) (h : k < 10) : (dChar k).isDigit = true := by
  interval_cases k <;> rfl

/-- Value of a digit character. -/
theorem digitVal_dChar (k : Nat) (h : k < 10) : digitVal (dChar k) = k := by
  interval_cases k <;> rfl

/-- Fixed-width renderings have their prescribed length. -/
theorem rendN_length (w n : Nat) : (rendN w n).length = w := by
  induction w generalizing n with
  | zero => rfl
  | succ w ih => simp [rendN, ih]

/-- Fixed-width renderings consist of digit characters. -/
theorem rendN_all_digits (w n : Nat) : ∀ c ∈ rendN w n, c.isDigit = true := by
  induction w generalizing n with
  | zero => simp [rendN]
  | succ w ih =>
    intro c hc
    have hc2 : c ∈ rendN w (n / 10) ∨ c = dChar (n % 10) := by simpa [rendN] using hc
    rcases hc2 with h | h
    · exact ih (n / 10) c h
    · subst h
      exact dChar_isDigit _ (Nat.mod_lt _ (by omega))

/-- A fixed-width rendering splits into its high and low digit blocks. -/
theorem rendN_add (a b n : Nat) : rendN (a + b) n = rendN a (n / 10 ^ b) ++ rendN b n := by
  induction b generalizing n with
  | zero => simp [rendN]
  | succ b ih =>
    have : a + (b + 1) = (a + b) + 1 := by omega
    rw [this]
    show rendN (a + b) (n / 10) ++ [dChar (n % 10)] = _
    rw [ih (n / 10)]
    have hd : n / 10 / 10 ^ b = n / 10 ^ (b + 1) := by
      rw [Nat.div_div_eq_div_mul, pow_succ']
    rw [hd, List.append_assoc]
    rfl

/-- The regex `\d{n}` consumes exactly a block of `n` digit characters. -/
theorem takeDigitsN_exact (l : List Char) (s : List Char)
    (h : ∀ c ∈ l, c.isDigit = true) :
    takeDigitsN l.length (l ++ s) = some (l, s) := by
  induction l with
  | nil => rfl
  | cons c cs ih =>
    have hc : c.isDigit = true := h c (by simp)
    have hcs := ih (fun x hx => h x (by simp [hx]))
    simp [takeDigitsN, hc, hcs]

/-- The regex `\d{w}` consumes a `w`-digit rendering. -/
theorem takeDigitsN_rendN (w n : Nat) (s : List Char) :
    takeDigitsN w (rendN w n ++ s) = some (rendN w n, s) := by
  have := takeDigitsN_exact (rendN w n) s (rendN_all_digits w n)
  rwa [rendN_length] at this

/-- Greedy digit accumulation over a digit block of exactly the remaining
width. -/
theorem scanDigitsAcc_exact (l : List Char) (acc : Nat) (s : List Char)
    (h : ∀ c ∈ l, c.isDigit = true) :
    scanDigitsAcc l.length acc (l ++ s) =
      (List.foldl (fun a c => a * 10 + digitVal c) acc l, s) := by
  induction l generalizing acc with
  | nil => rfl
  | cons c cs ih =>
    have hc : c.isDigit = true := h c (by simp)
    simp [scanDigitsAcc, hc, ih _ (fun x hx => h x (by simp [hx]))]

/-- Greedy digit accumulation stops at the first non-digit. -/
theorem scanDigitsAcc_stop (l : List Char) (acc : Nat) (c : Char) (s : List Char) (w : Nat)
    (h : ∀ x ∈ l, x.isDigit = true) (hc : c.isDigit = false) (hw : l.length ≤ w) :
    scanDigitsAcc w acc (l ++ c :: s) =
      (List.foldl (fun a x => a * 10 + digitVal x) acc l, c :: s) := by
  induction l generalizing acc w with
  | nil =>
    cases w with
    | zero => rfl
    | succ w => simp [scanDigitsAcc, hc]
  | cons x xs ih =>
    cases w with
    | zero => simp at hw
    | succ w =>
      have hx : x.isDigit = true := h x (by simp)
      simp [scanDigitsAcc, hx,
        ih (acc * 10 + digitVal x) w (fun y hy => h y (by simp [hy])) (by simpa using hw)]

/-- Folding digit accumulation over a fixed-width rendering recovers the
value modulo `10 ^ w`. -/
theorem rendN_foldl (w : Nat) : ∀ (acc n : Nat),
    List.foldl (fun a c => a * 10 + digitVal c) acc (rendN w n) =
      acc * 10 ^ w + n % 10 ^ w := by
  induction w with
  | zero => intro acc n; simp [rendN, Nat.mod_one]
  | succ w ih =>
    intro acc n
    show List.foldl _ acc (rendN w (n / 10) ++ [dChar (n % 10)]) = _
    rw [List.foldl_append, ih]
    simp only [List.foldl_cons, List.foldl_nil]
    rw [digitVal_dChar _ (Nat.mod_lt _ (by omega))]
    have hmod : n % 10 ^ (w + 1) = (n / 10 % 10 ^ w) * 10 + n % 10 := by
      rw [pow_succ', Nat.mod_mul]
      ring
    rw [hmod, pow_succ]
    ring

/-- A numeric item of width `w` parses a `w`-digit block exactly. -/
theorem scanNum_exact (l : List Char) (s : List Char)
    (h : ∀ c ∈ l, c.isDigit = true) (hne : l ≠ []) :
    scanNum l.length (l ++ s) =
      some (List.foldl (fun a c => a * 10 + digitVal c) 0 l, s) := by
  cases l with
  | nil => exact absurd rfl hne
  | cons c cs =>
    have hc : c.isDigit = true := h c (by simp)
    have := scanDigitsAcc_exact cs (digitVal c) s (fun x hx => h x (by simp [hx]))
    simp [scanNum, hc, this]

/-- A numeric item of width `w` parses a `w`-digit rendering and recovers the
value modulo `10 ^ w`. -/
theorem scanNum_rendN (w n : Nat) (s : List Char) (hw : 0 < w) :
    scanNum w (rendN w n ++ s) = some (n % 10 ^ w, s) := by
  have hne : rendN w n ≠ [] := by
    intro he
    have := rendN_length w n
    rw [he] at this
    simp at this
    omega
  have := scanNum_exact (rendN w n) s (rendN_all_digits w n) hne
  rw [rendN_length, rendN_foldl] at this
  simpa using this

/-- A numeric item stops at the first non-digit when the digit run is shorter
than the width. -/
theorem scanNum_digits_stop (l : List Char) (c : Char) (s : List Char) (w : Nat)
    (h : ∀ x ∈ l, x.isDigit = true) (hne : l ≠ []) (hc : c.isDigit = false)
    (hw : l.length ≤ w) :
    scanNum w (l ++ c :: s) =
      some (List.foldl (fun a x => a * 10 + digitVal x) 0 l, c :: s) := by
  cases l with
  | nil => exact absurd rfl hne
  | cons x xs =>
    have hx : x.isDigit = true := h x (by simp)
    have := scanDigitsAcc_stop xs (digitVal x) c s (w - 1)
      (fun y hy => h y (by simp [hy])) hc (by simp at hw; omega)
    simp [scanNum, hx, this]

/-- Whitespace skipping consumes a leading space. -/
theorem skipWs_space (s : List Char) : skipWs (' ' :: s) = skipWs s := by
  simp [skipWs]

/-- Whitespace skipping leaves an input that starts with a digit block
untouched. -/
theorem skipWs_digits (l : List Char) (s : List Char)
    (h : ∀ c ∈ l, c.isDigit = true) (hne : l ≠ []) :
    skipWs (l ++ s) = l ++ s := by
  cases l with
  | nil => exact absurd rfl hne
  | cons c cs =>
    have hc : c.isDigit = true := h c (by simp)
    have hnw : ¬(c = ' ' ∨ c = '\t' ∨ c = '\n' ∨ c = '\r') := by
      rintro (rfl | rfl | rfl | rfl) <;> simp_all
    simp [skipWs, hnw]

/-- Whitespace skipping leaves a fixed-width rendering untouched. -/
theorem skipWs_rendN (w n : Nat) (s : List Char) (hw : 0 < w) :
    skipWs (rendN w n ++ s) = rendN w n ++ s := by
  refine skipWs_digits _ _ (rendN_all_digits w n) ?_
  intro he
  have := rendN_length w n
  rw [he] at this
  simp at this
  omega

/-- Whitespace skipping leaves a month abbreviation untouched. -/
theorem skipWs_month (m : Nat) (r : List Char) (h1 : 1 ≤ m) (h2 : m ≤ 12) :
    skipWs (monthAbbr m ++ r) = monthAbbr m ++ r := by
  interval_cases m <;> rfl

/-- The month alternation finds exactly the month's abbreviation. -/
theorem matchFirstOf_month (m : Nat) (r : List Char) (h1 : 1 ≤ m) (h2 : m ≤ 12) :
    matchFirstOf monthAbbrs (monthAbbr m ++ r) = some (monthAbbr m, r) := by
  interval_cases m <;> rfl

/-- Chrono `%b` parses a month abbreviation to its month number. -/
theorem parseMonthAbbr_month (m : Nat) (r : List Char) (h1 : 1 ≤ m) (h2 : m ≤ 12) :
    parseMonthAbbr (monthAbbr m ++ r) = some (m, r) := by
  interval_cases m <;> rfl

/-- Weekday abbreviation of a weekday number. -/
def wdName (i : Nat) : List Char := wdAbbrsSun.getD i []

/-- The weekday alternation of the `ApacheError` regex finds exactly the
weekday's abbreviation. -/
theorem matchFirstOf_wd (i : Nat) (r : List Char) (h : i < 7) :
    matchFirstOf wdAbbrsRe (wdName i ++ r) = some (wdName i, r) := by
  interval_cases i <;> rfl

/-- Chrono `%a` parses a weekday abbreviation to its weekday number. -/
theorem parseWeekdayAbbr_wd (i : Nat) (r : List Char) (h : i < 7) :
    parseWeekdayAbbr (wdName i ++ r) = some (i, r) := by
  interval_cases i <;> rfl

/-- Weekday numbers are below seven. -/
theorem weekdayOf_lt (y m d : Nat) : weekdayOf y m d < 7 :=
  Nat.mod_lt _ (by omega)

/-- A leftmost scan that matches at the start returns that match. -/
theorem findFirst_here (m : List Char → Option (List Char)) (s : List Char)
    (r : List Char) (h : m s = some r) : findFirst m s = some r := by
  cases s with
  | nil => simpa [findFirst] using h
  | cons c cs => simp [findFirst, h]

/-- Validity of a calendar date, the condition checked by `fromYmd`. -/
def validYmd (y m d : Nat) : Prop :=
  1 ≤ m ∧ m ≤ 12 ∧ 1 ≤ d ∧ d ≤ daysInMonth y m

/-- Months have at most 31 days. -/
theorem daysInMonth_le (y m : Nat) : daysInMonth y m ≤ 31 := by
  unfold daysInMonth
  split_ifs <;> omega

/-- A valid date resolves through `fromYmd`. -/
theorem fromYmd_valid (y m d : Nat) (h : validYmd y m d) : fromYmd y m d = some ⟨y, m, d⟩ := by
  unfold fromYmd
  exact if_pos h

/-- Consuming one or more digits stops at the first non-digit. -/
theorem scanAllDigits_stop (l : List Char) (c : Char) (s : List Char)
    (h : ∀ x ∈ l, x.isDigit = true) (hne : l ≠ []) (hc : c.isDigit = false)
    (hw : l.length ≤ 1000000000) :
    scanAllDigits (l ++ c :: s) = some (c :: s) := by
  unfold scanAllDigits
  rw [scanNum_digits_stop l c s 1000000000 h hne hc hw]

/-- The unpadded rendering of a four-digit number has exactly four digits. -/
theorem rendDecAux_four (f n : Nat) (h1 : 1000 ≤ n) (h2 : n ≤ 9999) :
    rendDecAux (f + 4) n = rendN 4 n := by
  have ha : ¬n < 10 := by omega
  have hb : ¬n / 10 < 10 := by omega
  have hc : ¬n / 100 < 10 := by omega
  have hd : n / 1000 < 10 := by omega
  have e1 : n / 10 / 10 = n / 100 := by omega
  have e2 : n / 100 / 10 = n / 1000 := by omega
  have e3 : n / 1000 % 10 = n / 1000 := by omega
  simp [rendDecAux, rendN, ha, hb, hc, hd, e1, e2, e3]

/-- For four-digit years, `format!("{}", y)` and the padded `%Y` rendering
agree. -/
theorem rendDec_eq_rendN4 (y : Nat) (h1 : 1000 ≤ y) (h2 : y ≤ 9999) :
    rendDec y = rendN 4 y := by
  obtain ⟨f, hf⟩ : ∃ f, y + 1 = f + 4 := ⟨y - 3, by omega⟩
  rw [rendDec, hf, rendDecAux_four f y h1 h2]

/-- The `YYYY-MM-DD` digits of a date (also the date portion of a canonical
`Iso` line). -/
def isoDigits (y m d : Nat) : List Char :=
  rendN 4 y ++ '-' :: rendN 2 m ++ '-' :: rendN 2 d

/-- The literal calendar date of a line, formatted `YYYY-MM-DD` as the
specification requires. -/
def isoDate (y m d : Nat) : String := String.mk (isoDigits y m d)

/-- The `Iso` matcher on a canonical line: the ten date characters match. -/
theorem isoMatch_canonical (y m d : Nat) (rest : List Char) :
    isoMatch (isoDigits y m d ++ rest) = some (isoDigits y m d) := by
  have e0 : isoDigits y m d ++ rest =
      rendN 4 y ++ '-' :: (rendN 2 m ++ '-' :: (rendN 2 d ++ rest)) := by
    simp [isoDigits]
  rw [e0]
  simp [isoMatch, takeDigitsN_rendN, isoDigits]

/-- Chrono `"%Y-%m-%d"` parses the canonical `Iso` date text back to the
date. -/
theorem parseIsoStr_canonical (y m d : Nat) (hv : validYmd y m d) (hy : y ≤ 9999) :
    parseIsoStr (isoDigits y m d) = some ⟨y, m, d⟩ := by
  obtain ⟨hm1, hm2, hd1, hd2⟩ := hv
  have hdle : d ≤ 31 := le_trans hd2 (daysInMonth_le y m)
  have p4 : (10 : Nat) ^ 4 = 10000 := by norm_num
  have p2 : (10 : Nat) ^ 2 = 100 := by norm_num
  have hym : y % 10 ^ 4 = y := by rw [p4]; omega
  have hmm : m % 10 ^ 2 = m := by rw [p2]; omega
  have hdm : d % 10 ^ 2 = d := by rw [p2]; omega
  have e0 : isoDigits y m d =
      rendN 4 y ++ '-' :: (rendN 2 m ++ '-' :: (rendN 2 d ++ [])) := by
    simp [isoDigits]
  rw [e0]
  rw [parseIsoStr]
  rw [skipWs_rendN 4 y _ (by omega), scanNum_rendN 4 y _ (by omega), hym]
  simp only
  rw [skipWs_rendN 2 m _ (by omega), scanNum_rendN 2 m _ (by omega), hmm]
  simp only
  rw [skipWs_rendN 2 d _ (by omega), scanNum_rendN 2 d _ (by omega), hdm]
  simp only [if_pos rfl]
  exact fromYmd_valid y m d ⟨hm1, hm2, hd1, hd2⟩

/-- The `Iso` branch of `determine_date` on a canonical line returns the
literal date. -/
theorem determine_date_iso_canonical (cy y m d : Nat) (rest : List Char)
    (hv : validYmd y m d) (hy : y ≤ 9999) :
    determine_date .Iso cy (isoDigits y m d ++ rest) = some (isoDate y m d) := by
  have h1 := isoMatch_canonical y m d rest
  have h2 := parseIsoStr_canonical y m d hv hy
  simp only [determine_date, regexFind, h1, h2]
  rfl

/-- Day field of a canonical `Syslog` line: space-padded to two characters,
as traditional syslog produces and as the regex `([012 ]\d|3[01])` expects. -/
def syslogDayChars (d : Nat) : List Char :=
  if d < 10 then [' ', dChar d] else rendN 2 d

/-- Date portion of a canonical `Syslog` line. -/
def syslogPortion (m d : Nat) : List Char :=
  monthAbbr m ++ ' ' :: syslogDayChars d

/-- The `Syslog` matcher accepts a canonical month and day. -/
theorem syslogMatch_canonical (m d : Nat) (rest : List Char)
    (hm1 : 1 ≤ m) (hm2 : m ≤ 12) (hd1 : 1 ≤ d) (hd2 : d ≤ 31) :
    syslogMatch (syslogPortion m d ++ rest) = some (syslogPortion m d) := by
  have e0 : syslogPortion m d ++ rest =
      monthAbbr m ++ ' ' :: (syslogDayChars d ++ rest) := by
    simp [syslogPortion]
  rw [e0, syslogMatch, matchFirstOf_month m _ hm1 hm2]
  by_cases h10 : d < 10
  · have ed : syslogDayChars d = [' ', dChar d] := if_pos h10
    rw [ed]
    simp [dChar_isDigit d (by omega : d < 10), syslogPortion, ed]
  · have ed : syslogDayChars d = rendN 2 d := if_neg h10
    have e2 : rendN 2 d = [dChar (d / 10 % 10), dChar (d % 10)] := by
      simp [rendN]
    by_cases h30 : d < 30
    · have hq : d / 10 = 1 ∨ d / 10 = 2 := by omega
      have hq10 : d / 10 % 10 = d / 10 := by omega
      have hdig := dChar_isDigit (d % 10) (by omega : d % 10 < 10)
      rw [ed, e2, hq10]
      rcases hq with hq | hq <;> rw [hq] <;>
        simp [show dChar 1 = '1' from rfl, show dChar 2 = '2' from rfl, hdig,
          syslogPortion, ed, e2, hq10, hq]
    · have hq : d = 30 ∨ d = 31 := by omega
      rcases hq with rfl | rfl <;>
        simp [ed, e2, syslogPortion, dChar]

/-- Whitespace skipping leaves a bare fixed-width rendering untouched. -/
theorem skipWs_rendN_nil (w n : Nat) (hw : 0 < w) : skipWs (rendN w n) = rendN w n := by
  have := skipWs_rendN w n [] hw
  simpa using this

/-- A numeric item of width `w` at the end of the input parses a `w`-digit
rendering. -/
theorem scanNum_rendN_nil (w n : Nat) (hw : 0 < w) :
    scanNum w (rendN w n) = some (n % 10 ^ w, []) := by
  have := scanNum_rendN w n [] hw
  simpa using this

/-- Chrono `"%b %d %Y"` parses the canonical `Syslog` text, extended by the
current year, back to the date. -/
theorem parseSyslogStr_canonical (y m d : Nat) (hv : validYmd y m d)
    (hy1 : 1000 ≤ y) (hy2 : y ≤ 9999) :
    parseSyslogStr (syslogPortion m d ++ ' ' :: rendDec y) = some ⟨y, m, d⟩ := by
  obtain ⟨hm1, hm2, hd1, hd2⟩ := hv
  have hdle : d ≤ 31 := le_trans hd2 (daysInMonth_le y m)
  have p4 : (10 : Nat) ^ 4 = 10000 := by norm_num
  have p2 : (10 : Nat) ^ 2 = 100 := by norm_num
  have hym : y % 10 ^ 4 = y := by rw [p4]; omega
  have hdm : d % 10 ^ 2 = d := by rw [p2]; omega
  rw [rendDec_eq_rendN4 y hy1 hy2]
  have e0 : syslogPortion m d ++ ' ' :: rendN 4 y =
      monthAbbr m ++ (' ' :: (syslogDayChars d ++ ' ' :: rendN 4 y)) := by
    simp [syslogPortion]
  rw [e0, parseSyslogStr, parseMonthAbbr_month m _ hm1 hm2]
  have hsp : (' ' : Char).isDigit = false := rfl
  have hday : scanNum 2 (skipWs (skipWs (' ' :: (syslogDayChars d ++ ' ' :: rendN 4 y)))) =
      some (d, ' ' :: rendN 4 y) := by
    by_cases h10 : d < 10
    · have ed : syslogDayChars d = [' ', dChar d] := if_pos h10
      rw [ed]
      have e1 : ([' ', dChar d] ++ ' ' :: rendN 4 y) = ' ' :: (dChar d :: ' ' :: rendN 4 y) := rfl
      rw [e1, skipWs_space, skipWs_space]
      have hdig : ∀ c ∈ [dChar d], c.isDigit = true := by
        intro c hc
        simp only [List.mem_singleton] at hc
        subst hc
        exact dChar_isDigit d (by omega)
      have e2 : dChar d :: ' ' :: rendN 4 y = [dChar d] ++ ' ' :: rendN 4 y := rfl
      rw [e2, skipWs_digits [dChar d] _ hdig (by simp),
        skipWs_digits [dChar d] _ hdig (by simp),
        scanNum_digits_stop [dChar d] ' ' _ 2 hdig (by simp) hsp (by simp)]
      simp [digitVal_dChar d (by omega)]
    · have ed : syslogDayChars d = rendN 2 d := if_neg h10
      rw [ed, skipWs_space, skipWs_rendN 2 d _ (by omega), skipWs_rendN 2 d _ (by omega),
        scanNum_rendN 2 d _ (by omega), hdm]
  simp only [hday]
  simp only [skipWs_space, skipWs_rendN_nil 4 y (by omega),
    scanNum_rendN_nil 4 y (by omega), hym, if_pos rfl]
  exact fromYmd_valid y m d ⟨hm1, hm2, hd1, hd2⟩

/-- The `Syslog` branch of `determine_date` on a canonical line returns the
date whose day and month are those of the line and whose year is the current
processing-time year. -/
theorem determine_date_syslog_canonical (y m d : Nat) (rest : List Char)
    (hv : validYmd y m d) (hy1 : 1000 ≤ y) (hy2 : y ≤ 9999) :
    determine_date .Syslog y (syslogPortion m d ++ rest) = some (isoDate y m d) := by
  obtain ⟨hm1, hm2, hd1, hd2⟩ := hv
  have hdle : d ≤ 31 := le_trans hd2 (daysInMonth_le y m)
  have h1 := syslogMatch_canonical m d rest hm1 hm2 hd1 hdle
  have h2 := parseSyslogStr_canonical y m d ⟨hm1, hm2, hd1, hd2⟩ hy1 hy2
  simp only [determine_date, regexFind, h1, h2]
  rfl

/-- Date portion of a canonical `ApacheAccess` line, `[DD/Mon/YYYY:`. -/
def accessPortion (y m d : Nat) : List Char :=
  '[' :: rendN 2 d ++ '/' :: monthAbbr m ++ '/' :: rendN 4 y ++ [':']

/-- The `ApacheAccess` matcher accepts a canonical date portion at the start
of the input. -/
theorem apacheAccessAt_canonical (y m d : Nat) (rest : List Char)
    (hm1 : 1 ≤ m) (hm2 : m ≤ 12) :
    apacheAccessAt (accessPortion y m d ++ rest) = some (accessPortion y m d) := by
  have e0 : accessPortion y m d ++ rest =
      '[' :: (rendN 2 d ++ '/' :: (monthAbbr m ++ '/' :: (rendN 4 y ++ ':' :: rest))) := by
    simp [accessPortion]
  rw [e0]
  have hmo := matchFirstOf_month m ('/' :: (rendN 4 y ++ ':' :: rest)) hm1 hm2
  simp [apacheAccessAt, takeDigitsN_rendN, hmo, accessPortion]

/-- Chrono `"[%d/%b/%Y:"` parses the canonical `ApacheAccess` date text back
to the date. -/
theorem parseApacheAccessStr_canonical (y m d : Nat) (hv : validYmd y m d)
    (hy : y ≤ 9999) :
    parseApacheAccessStr (accessPortion y m d) = some ⟨y, m, d⟩ := by
  obtain ⟨hm1, hm2, hd1, hd2⟩ := hv
  have hdle : d ≤ 31 := le_trans hd2 (daysInMonth_le y m)
  have p4 : (10 : Nat) ^ 4 = 10000 := by norm_num
  have p2 : (10 : Nat) ^ 2 = 100 := by norm_num
  have hym : y % 10 ^ 4 = y := by rw [p4]; omega
  have hdm : d % 10 ^ 2 = d := by rw [p2]; omega
  have e0 : accessPortion y m d =
      '[' :: (rendN 2 d ++ '/' :: (monthAbbr m ++ '/' :: (rendN 4 y ++ [':']))) := by
    simp [accessPortion]
  rw [e0, parseApacheAccessStr]
  rw [skipWs_rendN 2 d _ (by omega), scanNum_rendN 2 d _ (by omega), hdm]
  simp only
  rw [parseMonthAbbr_month m _ hm1 hm2]
  simp only
  rw [skipWs_rendN 4 y _ (by omega), scanNum_rendN 4 y _ (by omega), hym]
  simp only
  exact fromYmd_valid y m d ⟨hm1, hm2, hd1, hd2⟩

/-- The `ApacheAccess` branch of `determine_date` on a canonical line returns
the literal date. -/
theorem determine_date_access_canonical (cy y m d : Nat) (rest : List Char)
    (hv : validYmd y m d) (hy : y ≤ 9999) :
    determine_date .ApacheAccess cy (accessPortion y m d ++ rest) =
      some (isoDate y m d) := by
  have h1 := apacheAccessAt_canonical y m d rest hv.1 hv.2.1
  have hf := findFirst_here apacheAccessAt (accessPortion y m d ++ rest)
    (accessPortion y m d) h1
  have h2 := parseApacheAccessStr_canonical y m d hv hy
  simp only [determine_date, regexFind, hf, h2]
  rfl

/-- Date portion of a canonical `ApacheError` line,
`[Wd Mon DD HH:MM:SS.ffffff YYYY]` with the weekday that belongs to the
date. -/
def errorPortion (y m d hh mi ss f : Nat) : List Char :=
  '[' :: wdName (weekdayOf y m d) ++ ' ' :: monthAbbr m ++ ' ' :: rendN 2 d ++
    ' ' :: rendN 2 hh ++ ':' :: rendN 2 mi ++ ':' :: rendN 2 ss ++
    '.' :: rendN 6 f ++ ' ' :: rendN 4 y ++ [']']

/-- The tail of the `ApacheError` pattern never matches directly at a month
abbreviation (its first character is a letter, not the expected space). -/
theorem apacheErrTail_month_none (m : Nat) (r : List Char) (h1 : 1 ≤ m) (h2 : m ≤ 12) :
    apacheErrTail (monthAbbr m ++ r) = none := by
  interval_cases m <;> rfl

/-- The tail of the `ApacheError` pattern accepts canonical day, time,
fraction and year fields. -/
theorem apacheErrTail_canonical (y d hh mi ss f : Nat) (rest : List Char) :
    apacheErrTail (' ' :: (rendN 2 d ++ ' ' :: (rendN 2 hh ++ ':' :: (rendN 2 mi ++
        ':' :: (rendN 2 ss ++ '.' :: (rendN 6 f ++ ' ' :: (rendN 4 y ++ ']' :: rest))))))) =
      some (' ' :: rendN 2 d ++ ' ' :: rendN 2 hh ++ ':' :: rendN 2 mi ++
        ':' :: rendN 2 ss ++ '.' :: rendN 6 f ++ ' ' :: rendN 4 y ++ [']']) := by
  simp [apacheErrTail, takeDigitsN_rendN]

/-- The month alternation of the `ApacheError` regex, empty alternative
included, settles on the line's month when the rest of the pattern matches
behind it. -/
theorem apacheErrMonthLoop_canonical (m : Nat) (r t : List Char)
    (h1 : 1 ≤ m) (h2 : m ≤ 12) (ht : apacheErrTail r = some t) :
    apacheErrMonthLoop errMonthAlts (monthAbbr m ++ r) = some (monthAbbr m ++ t) := by
  have hnone := apacheErrTail_month_none m r h1 h2
  interval_cases m <;>
    simp only [monthAbbr, List.cons_append, List.nil_append] at hnone ⊢ <;>
    simp [apacheErrMonthLoop, errMonthAlts, monthAbbr, strAt, ht, hnone]

/-- The `ApacheError` matcher accepts a canonical date portion at the start
of the input. -/
theorem apacheErrorAt_canonical (y m d hh mi ss f : Nat) (rest : List Char)
    (hm1 : 1 ≤ m) (hm2 : m ≤ 12) :
    apacheErrorAt (errorPortion y m d hh mi ss f ++ rest) =
      some (errorPortion y m d hh mi ss f) := by
  have e0 : errorPortion y m d hh mi ss f ++ rest =
      '[' :: (wdName (weekdayOf y m d) ++ (' ' :: (monthAbbr m ++
        (' ' :: (rendN 2 d ++ (' ' :: (rendN 2 hh ++ (':' :: (rendN 2 mi ++
          (':' :: (rendN 2 ss ++ ('.' :: (rendN 6 f ++ (' ' :: (rendN 4 y ++
            (']' :: rest)))))))))))))))) := by
    simp [errorPortion]
  rw [e0]
  have ht := apacheErrTail_canonical y d hh mi ss f rest
  have hloop := apacheErrMonthLoop_canonical m _ _ hm1 hm2 ht
  simp only [apacheErrorAt]
  rw [matchFirstOf_wd _ _ (weekdayOf_lt y m d)]
  simp only
  rw [hloop]
  simp [errorPortion]

/-- Chrono `"[%a %b %d %H:%M:%s%.6f %Y]"` parses the canonical `ApacheError`
date text back to the date (the weekday consistency check passes because the
canonical line carries the date's own weekday). -/
theorem parseApacheErrorStr_canonical (y m d hh mi ss f : Nat) (hv : validYmd y m d)
    (hy : y ≤ 9999) :
    parseApacheErrorStr (errorPortion y m d hh mi ss f) = some ⟨y, m, d⟩ := by
  obtain ⟨hm1, hm2, hd1, hd2⟩ := hv
  have hdle : d ≤ 31 := le_trans hd2 (daysInMonth_le y m)
  have p4 : (10 : Nat) ^ 4 = 10000 := by norm_num
  have p2 : (10 : Nat) ^ 2 = 100 := by norm_num
  have hym : y % 10 ^ 4 = y := by rw [p4]; omega
  have hdm : d % 10 ^ 2 = d := by rw [p2]; omega
  have e0 : errorPortion y m d hh mi ss f =
      ('['  :: (wdName (weekdayOf y m d) ++ (' ' :: (monthAbbr m ++ (' ' :: (rendN 2 d ++ (' ' :: (rendN 2 hh ++ (':' :: (rendN 2 mi ++ (':' :: (rendN 2 ss ++ ('.' :: (rendN 6 f ++ (' ' :: (rendN 4 y ++ [']'])))))))))))))))) := by
    simp [errorPortion]
  rw [e0, parseApacheErrorStr]
  rw [parseWeekdayAbbr_wd _ _ (weekdayOf_lt y m d)]
  simp only
  rw [skipWs_space, skipWs_month m _ hm1 hm2, parseMonthAbbr_month m _ hm1 hm2]
  simp only
  rw [skipWs_space, skipWs_rendN 2 d _ (by omega), skipWs_rendN 2 d _ (by omega),
    scanNum_rendN 2 d _ (by omega), hdm]
  simp only
  rw [skipWs_space, skipWs_rendN 2 hh _ (by omega), skipWs_rendN 2 hh _ (by omega),
    scanNum_rendN 2 hh _ (by omega)]
  simp only
  rw [skipWs_rendN 2 mi _ (by omega), scanNum_rendN 2 mi _ (by omega)]
  simp only
  have hss : scanAllDigits (rendN 2 ss ++ ('.' :: (rendN 6 f ++ (' ' :: (rendN 4 y ++
      [']']))))) = some ('.' :: (rendN 6 f ++ (' ' :: (rendN 4 y ++ [']'])))) := by
    refine scanAllDigits_stop _ _ _ (rendN_all_digits 2 ss) ?_ rfl ?_
    · intro he
      have := rendN_length 2 ss
      rw [he] at this
      simp at this
    · rw [rendN_length]
      omega
  rw [hss]
  simp only
  rw [takeDigitsN_rendN 6 f]
  simp only
  rw [skipWs_space, skipWs_rendN 4 y _ (by omega), skipWs_rendN 4 y _ (by omega),
    scanNum_rendN 4 y _ (by omega), hym]
  simp only
  rw [fromYmd_valid y m d ⟨hm1, hm2, hd1, hd2⟩]
  simp

/-- The `ApacheError` branch of `determine_date` on a canonical line returns
the literal date. -/
theorem determine_date_error_canonical (cy y m d hh mi ss f : Nat) (rest : List Char)
    (hv : validYmd y m d) (hy : y ≤ 9999) :
    determine_date .ApacheError cy (errorPortion y m d hh mi ss f ++ rest) =
      some (isoDate y m d) := by
  have h1 := apacheErrorAt_canonical y m d hh mi ss f rest hv.1 hv.2.1
  have hf := findFirst_here apacheErrorAt (errorPortion y m d hh mi ss f ++ rest)
    (errorPortion y m d hh mi ss f) h1
  have h2 := parseApacheErrorStr_canonical y m d hh mi ss f hv hy
  simp only [determine_date, regexFind, hf, h2]
  rfl

/-- Date portion of a canonical `GrafanaLogs` line,
`t=YYYY-MM-DDTHH:MM:SS±hhmm lvl=`. -/
def grafanaPortion (y m d hh mi ss : Nat) (sgn : Char) (off : Nat) : List Char :=
  't' :: '=' :: rendN 4 y ++ '-' :: rendN 2 m ++ '-' :: rendN 2 d ++
    'T' :: rendN 2 hh ++ ':' :: rendN 2 mi ++ ':' :: rendN 2 ss ++
    sgn :: rendN 4 off ++ [' ', 'l', 'v', 'l', '=']

/-- The offset-minutes step takes the no-colon branch on a digit. -/
theorem tzMinutes_digit (a : Nat) (rs : List Char) (ha : a < 10) :
    tzMinutes (dChar a :: rs) = takeDigitsN 2 (dChar a :: rs) := by
  interval_cases a <;> rfl

/-- The `GrafanaLogs` matcher accepts a canonical line. -/
theorem grafanaMatch_canonical (y m d hh mi ss off : Nat) (sgn : Char) (rest : List Char)
    (hs : sgn = '+' ∨ sgn = '-') :
    grafanaMatch (grafanaPortion y m d hh mi ss sgn off ++ rest) =
      some (grafanaPortion y m d hh mi ss sgn off) := by
  have e0 : grafanaPortion y m d hh mi ss sgn off ++ rest =
      ('t' :: ('=' :: (rendN 4 y ++ ('-' :: (rendN 2 m ++ ('-' :: (rendN 2 d ++ ('T' :: (rendN 2 hh ++ (':' :: (rendN 2 mi ++ (':' :: (rendN 2 ss ++ (sgn :: (rendN 4 off ++ (' ' :: ('l' :: ('v' :: ('l' :: ('=' :: rest)))))))))))))))))))) := by
    simp [grafanaPortion]
  rw [e0]
  rcases hs with rfl | rfl <;>
    simp [grafanaMatch, takeDigitsN_rendN, grafanaPortion]

/-- Chrono `"t=%Y-%m-%dT%H:%M:%S%z lvl="` parses the canonical `GrafanaLogs`
date text back to the date. -/
theorem parseGrafanaStr_canonical (y m d hh mi ss off : Nat) (sgn : Char)
    (hv : validYmd y m d) (hy : y ≤ 9999) (hs : sgn = '+' ∨ sgn = '-') :
    parseGrafanaStr (grafanaPortion y m d hh mi ss sgn off) = some ⟨y, m, d⟩ := by
  obtain ⟨hm1, hm2, hd1, hd2⟩ := hv
  have hdle : d ≤ 31 := le_trans hd2 (daysInMonth_le y m)
  have p4 : (10 : Nat) ^ 4 = 10000 := by norm_num
  have p2 : (10 : Nat) ^ 2 = 100 := by norm_num
  have hym : y % 10 ^ 4 = y := by rw [p4]; omega
  have hmm : m % 10 ^ 2 = m := by rw [p2]; omega
  have hdm : d % 10 ^ 2 = d := by rw [p2]; omega
  have e0 : grafanaPortion y m d hh mi ss sgn off =
      ('t' :: ('=' :: (rendN 4 y ++ ('-' :: (rendN 2 m ++ ('-' :: (rendN 2 d ++ ('T' :: (rendN 2 hh ++ (':' :: (rendN 2 mi ++ (':' :: (rendN 2 ss ++ (sgn :: (rendN 4 off ++ ([' ', 'l', 'v', 'l', '='] : List Char)))))))))))))))) := by
    simp [grafanaPortion]
  rw [e0, parseGrafanaStr]
  rw [skipWs_rendN 4 y _ (by omega), scanNum_rendN 4 y _ (by omega), hym]
  simp only
  rw [skipWs_rendN 2 m _ (by omega), scanNum_rendN 2 m _ (by omega), hmm]
  simp only
  rw [skipWs_rendN 2 d _ (by omega), scanNum_rendN 2 d _ (by omega), hdm]
  simp only
  rw [skipWs_rendN 2 hh _ (by omega), scanNum_rendN 2 hh _ (by omega)]
  simp only
  rw [skipWs_rendN 2 mi _ (by omega), scanNum_rendN 2 mi _ (by omega)]
  simp only
  rw [skipWs_rendN 2 ss _ (by omega), scanNum_rendN 2 ss _ (by omega)]
  simp only
  rw [if_pos hs]
  have e4 : rendN 4 off = rendN 2 (off / 10 ^ 2) ++ rendN 2 off := rendN_add 2 2 off
  rw [e4, List.append_assoc, takeDigitsN_rendN]
  simp only
  have ha : off / 10 % 10 < 10 := Nat.mod_lt _ (by omega)
  have hb : off % 10 < 10 := Nat.mod_lt _ (by omega)
  have e2 : rendN 2 off = [dChar (off / 10 % 10), dChar (off % 10)] := by
    simp [rendN]
  rw [e2]
  simp only [List.cons_append, List.nil_append]
  rw [tzMinutes_digit _ _ ha]
  have htd : takeDigitsN 2 (dChar (off / 10 % 10) :: dChar (off % 10) ::
      ([' ', 'l', 'v', 'l', '='] : List Char)) =
      some ([dChar (off / 10 % 10), dChar (off % 10)], [' ', 'l', 'v', 'l', '=']) := by
    simp [takeDigitsN, dChar_isDigit _ ha, dChar_isDigit _ hb]
  rw [htd]
  simp only
  have hsk : skipWs ([' ', 'l', 'v', 'l', '='] : List Char) = ['l', 'v', 'l', '='] := rfl
  rw [hsk]
  simp only [if_pos rfl]
  exact fromYmd_valid y m d ⟨hm1, hm2, hd1, hd2⟩

/-- The `GrafanaLogs` branch of `determine_date` on a canonical line returns
the literal date. -/
theorem determine_date_grafana_canonical (cy y m d hh mi ss off : Nat) (sgn : Char)
    (rest : List Char) (hv : validYmd y m d) (hy : y ≤ 9999)
    (hs : sgn = '+' ∨ sgn = '-') :
    determine_date .GrafanaLogs cy (grafanaPortion y m d hh mi ss sgn off ++ rest) =
      some (isoDate y m d) := by
  have h1 := grafanaMatch_canonical y m d hh mi ss off sgn rest hs
  have h2 := parseGrafanaStr_canonical y m d hh mi ss off sgn hv hy hs
  simp only [determine_date, regexFind, h1, h2]
  rfl

/-- C2: for every `LogType`, a line that is correctly formatted for that
format's date pattern — beginning with the format's canonical date portion,
with a valid calendar date, matching weekday for `ApacheError`, and, for
`Syslog`, interpreted against the current processing-time year — makes
`determine_date` return exactly the literal calendar date encoded in the
line, formatted `YYYY-MM-DD`. -/
theorem C2_literal_dates :
    (∀ (cy y m d : Nat) (rest : List Char), validYmd y m d → y ≤ 9999 →
      determine_date .Iso cy (isoDigits y m d ++ rest) = some (isoDate y m d)) ∧
    (∀ (y m d : Nat) (rest : List Char), validYmd y m d → 1000 ≤ y → y ≤ 9999 →
      determine_date .Syslog y (syslogPortion m d ++ rest) = some (isoDate y m d)) ∧
    (∀ (cy y m d : Nat) (rest : List Char), validYmd y m d → y ≤ 9999 →
      determine_date .ApacheAccess cy (accessPortion y m d ++ rest) =
        some (isoDate y m d)) ∧
    (∀ (cy y m d hh mi ss f : Nat) (rest : List Char), validYmd y m d → y ≤ 9999 →
      determine_date .ApacheError cy (errorPortion y m d hh mi ss f ++ rest) =
        some (isoDate y m d)) ∧
    (∀ (cy y m d hh mi ss off : Nat) (sgn : Char) (rest : List Char),
      validYmd y m d → y ≤ 9999 → (sgn = '+' ∨ sgn = '-') →
      determine_date .GrafanaLogs cy (grafanaPortion y m d hh mi ss sgn off ++ rest) =
        some (isoDate y m d)) :=
  ⟨fun cy y m d rest hv hy => determine_date_iso_canonical cy y m d rest hv hy,
   fun y m d rest hv h1 h2 => determine_date_syslog_canonical y m d rest hv h1 h2,
   fun cy y m d rest hv hy => determine_date_access_canonical cy y m d rest hv hy,
   fun cy y m d hh mi ss f rest hv hy =>
     determine_date_error_canonical cy y m d hh mi ss f rest hv hy,
   fun cy y m d hh mi ss off sgn rest hv hy hs =>
     determine_date_grafana_canonical cy y m d hh mi ss off sgn rest hv hy hs⟩

/-- Witness for C2 on one concrete well-formed line per format. -/
theorem C2_literal_dates_witness :
    determine_date .Iso 2024 (isoDigits 2020 5 12 ++ String.toList " something") =
      some (isoDate 2020 5 12) ∧
    determine_date .Syslog 2024 (syslogPortion 1 5 ++ String.toList " myhost prog: hello") =
      some (isoDate 2024 1 5) ∧
    determine_date .ApacheAccess 2024
        (accessPortion 2020 5 17 ++ String.toList "00:00:00 +0000] GET /") =
      some (isoDate 2020 5 17) ∧
    determine_date .ApacheError 2024
        (errorPortion 2020 5 16 2 7 16 656808 ++ String.toList " [pid 1] message") =
      some (isoDate 2020 5 16) ∧
    determine_date .GrafanaLogs 2024
        (grafanaPortion 2020 5 12 18 14 21 '+' 200 ++ String.toList "info msg") =
      some (isoDate 2020 5 12) :=
  ⟨C2_literal_dates.1 2024 2020 5 12 _ (by unfold validYmd; decide) (by decide),
   C2_literal_dates.2.1 2024 1 5 _ (by unfold validYmd; decide) (by decide) (by decide),
   C2_literal_dates.2.2.1 2024 2020 5 17 _ (by unfold validYmd; decide) (by decide),
   C2_literal_dates.2.2.2.1 2024 2020 5 16 2 7 16 656808 _ (by unfold validYmd; decide)
     (by decide),
   C2_literal_dates.2.2.2.2 2024 2020 5 12 18 14 21 200 '+' _ (by unfold validYmd; decide)
     (by decide) (by decide)⟩
